import Mathlib

/-!
Verification of the reference-genome decoder and indel-equivalence checker of
VCF2CNA-Beta (src/snvcounts.cpp together with the declarations in genutil.h).

The C++ code is shallowly embedded: `uint32_t` values are natural numbers,
with an explicit reduction modulo 2^32 wherever the C++ arithmetic can wrap
(subtracting 1 from a position, adding a length to a position, storing a
`size_t` length into a `uint32_t`).  `std::string` values are lists of
characters.  The file-reading layer (`BinaryReader`) is abstracted away: the
already-decoded field values of the 2bit file (directory entries, chromosome
record fields, packed nucleotide bytes) are the inputs of the embedded
constructor, and a read that the C++ code would fail on (truncated file)
is an explicit error value.
-/

namespace VCF2CNA

/-- The modulus of `uint32_t` arithmetic, 2^32. -/
def U32MOD : Nat := 4294967296

/-- Reduction of a natural number into `uint32_t` range. -/
def u32 (a : Nat) : Nat := a % U32MOD

/-- Wrapping `uint32_t` subtraction `a - b` (wraps on underflow). -/
def u32sub (a b : Nat) : Nat := (a % U32MOD + (U32MOD - b % U32MOD)) % U32MOD

/-- A `ReferenceGenome` object (genutil.h): the window `[beginPos, endPos]`
(1-based, inclusive) of decoded bases of one chromosome.  `sequence` holds
one character per position, `sequence[pos - beginPos]` being the base at
`pos`, exactly as the C++ member `char *sequence`.  (`begin`/`end` of the
C++ class are named `beginPos`/`endPos`; `end` is reserved in Lean.) -/
structure ReferenceGenome where
  beginPos : Nat
  endPos : Nat
  sequence : List Char
deriving DecidableEq

/-- Method `ReferenceGenome::getBase` (snvcounts.cpp:1347-1353): the base at `pos`,
or `'N'` whenever `pos` lies outside the window. -/
def ReferenceGenome.getBase (g : ReferenceGenome) (pos : Nat) : Char :=
  if pos < g.beginPos ∨ pos > g.endPos then 'N'
  else g.sequence.getD (pos - g.beginPos) ' '

/-- Method `ReferenceGenome::validDeletion` (snvcounts.cpp:1359-1368): the deleted
bases match the reference starting at `pos`.  `n` is the length truncated
into `uint32_t` and `pos + i` is `uint32_t` addition, as in the source. -/
def ReferenceGenome.validDeletion (g : ReferenceGenome) (pos : Nat)
    (seq : List Char) : Bool :=
  (List.range (u32 seq.length)).all fun i =>
    seq.getD i ' ' == g.getBase (u32 (pos + i))

/-- Method `ReferenceGenome::equivalentInsertions` (snvcounts.cpp:1375-1447).
`j` and `k` are the positions right before the two insertions (`pos - 1` in
`uint32_t` arithmetic), `v`/`w` the inserted strings at the smaller/larger
position, `m = k - j` the gap, `n` the common length.  The three branches
(`m < n`, `m == n`, `m > n`) are the source's three loops; each `List.all`
is one `for` loop with its early `return false`.  In the `m > n` branch
`k - n` cannot underflow (`m > n` forces `k ≥ n`), and the third loop runs
`sindex` from `j + 1` (as `uint32_t`) up to `last = k - n` inclusive. -/
def ReferenceGenome.equivalentInsertions (g : ReferenceGenome)
    (pos1 : Nat) (seq1 : List Char) (pos2 : Nat) (seq2 : List Char) : Bool :=
  if seq1.length ≠ seq2.length then false
  else if pos1 = pos2 then seq1 == seq2
  else
    let j := u32sub (min pos1 pos2) 1
    let k := u32sub (max pos1 pos2) 1
    let v := if pos1 < pos2 then seq1 else seq2
    let w := if pos1 < pos2 then seq2 else seq1
    let m := u32sub k j
    let n := u32 seq1.length
    if m < n then
      ((List.range m).all fun i =>
        v.getD i ' ' == w.getD (n - m + i) ' ' &&
        v.getD i ' ' == g.getBase (u32 (j + 1 + i))) &&
      ((List.range (n - m)).all fun i =>
        v.getD (m + i) ' ' == w.getD i ' ')
    else if m = n then
      (List.range n).all fun i =>
        v.getD i ' ' == w.getD i ' ' &&
        v.getD i ' ' == g.getBase (u32 (j + 1 + i))
    else
      ((List.range n).all fun i =>
        v.getD i ' ' == g.getBase (u32 (j + 1 + i))) &&
      ((List.range n).all fun i =>
        w.getD i ' ' == g.getBase (u32 (u32sub k n + 1 + i))) &&
      ((List.range (u32sub k n + 1 - u32 (j + 1))).all fun i =>
        g.getBase (u32 (j + 1) + i) == g.getBase (u32 (u32 (j + 1) + i + n)))

/-- Method `ReferenceGenome::equivalentDeletions` (snvcounts.cpp:1454-1485).
`j`/`k` are the smaller/larger starting position; the single loop checks
`getBase(sindex) == getBase(sindex + n)` for `sindex` from `j` up to
`k - 1`, `sindex + n` being `uint32_t` addition. -/
def ReferenceGenome.equivalentDeletions (g : ReferenceGenome)
    (pos1 : Nat) (seq1 : List Char) (pos2 : Nat) (seq2 : List Char) : Bool :=
  if seq1.length ≠ seq2.length then false
  else if pos1 = pos2 then seq1 == seq2
  else
    let j := min pos1 pos2
    let k := max pos1 pos2
    let n := u32 seq1.length
    (List.range (k - j)).all fun i =>
      g.getBase (j + i) == g.getBase (u32 (j + i + n))

/-! ## The constructor (window extraction from a 2bit file)

`ReferenceGenome::ReferenceGenome` (snvcounts.cpp:1215-1341) opens the file,
scans the chromosome directory, seeks to the chromosome record, decodes the
packed 2-bit stream over the requested range and overlays the unknown
regions.  The embedding below takes the already-parsed file content as
input (directory entries; per-offset chromosome records); the byte-order
detection and field-by-field reads of `BinaryReader` are below the level of
any claim and a record that cannot be read is the `truncatedFile` error. -/

/-- Errors thrown by the constructor. -/
inductive GenomeError where
  | invalidChromosome
  | chromosomeNotFound (name : String)
  | invalidRange
  | truncatedFile
deriving DecidableEq

/-- Constant `NUM_CHROMOSOMES` (genutil.h). -/
def NUM_CHROMOSOMES : Nat := 24

/-- Table `chrLongName` (snvcounts.cpp:332-339). -/
def chrLongName : List String :=
  ["",      "chr1",  "chr2",  "chr3",  "chr4",
   "chr5",  "chr6",  "chr7",  "chr8",  "chr9",
   "chr10", "chr11", "chr12", "chr13", "chr14",
   "chr15", "chr16", "chr17", "chr18", "chr19",
   "chr20", "chr21", "chr22", "chrX",  "chrY"]

/-- Table `chrShortName` (snvcounts.cpp:341-348). -/
def chrShortName : List String :=
  ["",   "1",  "2",  "3",  "4",
   "5",  "6",  "7",  "8",  "9",
   "10", "11", "12", "13", "14",
   "15", "16", "17", "18", "19",
   "20", "21", "22", "X",  "Y"]

/-- The directory-entry match condition of the constructor's scan
(snvcounts.cpp:1258-1260). -/
def matchesEntry (chrNumber : Nat) (chrName : String) (name : String) : Bool :=
  (chrName == "" &&
     (name == chrShortName.getD chrNumber "" ||
      name == chrLongName.getD chrNumber "")) ||
  (chrName != "" && name == chrName)

/-- One step of the directory scan (snvcounts.cpp:1245-1262): the loop body
runs only while `chrOffset == 0` and stores the entry's offset when the
name matches.  (The C++ loop stops reading entries once `chrOffset` is
nonzero; folding the remaining entries with an unchanged accumulator yields
the same offset.) -/
def scanStep (chrNumber : Nat) (chrName : String) (chrOffset : Nat)
    (e : String × Nat) : Nat :=
  if chrOffset == 0 && matchesEntry chrNumber chrName e.1 then u32 e.2
  else chrOffset

/-- The constructor's directory scan: `chrOffset` after the loop of
snvcounts.cpp:1243-1262, starting from the sentinel 0. -/
def findChrOffset (entries : List (String × Nat)) (chrNumber : Nat)
    (chrName : String) : Nat :=
  entries.foldl (scanStep chrNumber chrName) 0

/-- The fields of one chromosome record of a 2bit file, as the constructor
reads them at the chromosome's byte offset: the total base count, the
unknown-region blocks (0-based start offset and length pairs), and the
packed nucleotide stream as bytes.  The masked-region blocks are read by
the C++ code only to advance past them to the stream (the `dnaOffset`
computation at snvcounts.cpp:1301-1302), which giving `bytes` directly
absorbs. -/
structure ChrRecord where
  numBases : Nat
  nBlocks : List (Nat × Nat)
  bytes : List Nat
deriving DecidableEq

/-- The nucleotide table `symbol` of the constructor (snvcounts.cpp:1310):
2-bit code 0 is T, 1 is C, 2 is A, 3 is G. -/
def symbol (index : Nat) : Char :=
  match index with
  | 0 => 'T'
  | 1 => 'C'
  | 2 => 'A'
  | _ => 'G'

/-- The decoded character for position `pos` (snvcounts.cpp:1315-1326):
the byte holding `pos` is byte `(pos - 1) / 4` of the packed stream, the
2-bit code sits at shift `2 * (3 - (pos - 1) % 4)`, and `& 3` extracts it. -/
def decodeChar (bytes : List Nat) (pos : Nat) : Char :=
  symbol ((bytes.getD ((pos - 1) / 4) 0 >>> (2 * (3 - (pos - 1) % 4))) % 4)

/-- The decode loop: one character per position from `b` to `e`. -/
def decodeRange (bytes : List Nat) (b e : Nat) : List Char :=
  (List.range (e + 1 - b)).map fun i => decodeChar bytes (b + i)

/-- Overwrite the characters at indices `lo` through `hi` (inclusive) with
`'N'`; `i` is the index of the list's first element. -/
def markRange (sq : List Char) (i lo hi : Nat) : List Char :=
  match sq with
  | [] => []
  | c :: cs => (if lo ≤ i ∧ i ≤ hi then 'N' else c) :: markRange cs (i + 1) lo hi

/-- The unknown-region overlay (snvcounts.cpp:1330-1338): each block with
0-based start `s` and length `l` becomes the 1-based interval
`[s + 1, s + 1 + l - 1]`; every position of its intersection with the
window `[b, e]` is set to `'N'`. -/
def applyUnknown (b e : Nat) (blocks : List (Nat × Nat)) (sq : List Char) :
    List Char :=
  blocks.foldl (fun sq blk =>
    let nstart := blk.1 + 1
    let nstop := nstart + blk.2 - 1
    if nstart ≤ e ∧ nstop ≥ b then
      let start := if nstart < b then b else nstart
      let stop := if nstop > e then e else nstop
      markRange sq 0 (start - b) (stop - b)
    else sq) sq

/-- The window-building part of the constructor (snvcounts.cpp:1279-1341):
clamp `end` to the chromosome's base count, reject an invalid range, fail
on a stream too short to cover the window, else decode and overlay. -/
def buildWindow (beginpos endpos numBases : Nat) (blocks : List (Nat × Nat))
    (bytes : List Nat) : Except GenomeError ReferenceGenome :=
  let e := if endpos > numBases then numBases else endpos
  if beginpos = 0 ∨ beginpos > e then .error .invalidRange
  else if bytes.length ≤ (e - 1) / 4 then .error .truncatedFile
  else .ok ⟨beginpos, e, applyUnknown beginpos e blocks (decodeRange bytes beginpos e)⟩

/-- The full constructor (snvcounts.cpp:1215-1341): validate the chromosome
specification, scan the directory for the chromosome's byte offset (0 means
not found), read the record at that offset and build the window.  `records`
maps a byte offset to the chromosome record stored there, `none` meaning
the read fails. -/
def mkReferenceGenome (entries : List (String × Nat))
    (records : Nat → Option ChrRecord) (chrNumber : Nat) (chrName : String)
    (beginpos endpos : Nat) : Except GenomeError ReferenceGenome :=
  if chrName = "" ∧ (chrNumber = 0 ∨ chrNumber > NUM_CHROMOSOMES) then
    .error .invalidChromosome
  else
    let chrOffset := findChrOffset entries chrNumber chrName
    if chrOffset = 0 then
      .error (.chromosomeNotFound
        (if chrName = "" then chrShortName.getD chrNumber "" else chrName))
    else
      match records chrOffset with
      | none => .error .truncatedFile
      | some r => buildWindow beginpos endpos r.numBases r.nBlocks r.bytes

/-! ## Checked variants

The same three checker functions with every string subscript performed
through `List.get?`: the result is `none` exactly when some subscript is
out of range, so `= some _` states that the function never reaches an
out-of-range access. -/

/-- A `for` loop with early `return false` whose body may fail: the shape
of the checker loops with fallible subscripts. -/
def optAll (f : Nat → Option Bool) : List Nat → Option Bool
  | [] => some true
  | i :: is => do
    let b ← f i
    if b then optAll f is else pure false

/-- Function `validDeletion` with checked subscripts. -/
def ReferenceGenome.validDeletionChecked (g : ReferenceGenome) (pos : Nat)
    (seq : List Char) : Option Bool :=
  optAll (fun i => do
      let c ← seq.get? i
      pure (c == g.getBase (u32 (pos + i))))
    (List.range (u32 seq.length))

/-- Function `equivalentInsertions` with checked subscripts. -/
def ReferenceGenome.equivalentInsertionsChecked (g : ReferenceGenome)
    (pos1 : Nat) (seq1 : List Char) (pos2 : Nat) (seq2 : List Char) :
    Option Bool :=
  if seq1.length ≠ seq2.length then some false
  else if pos1 = pos2 then some (seq1 == seq2)
  else
    let j := u32sub (min pos1 pos2) 1
    let k := u32sub (max pos1 pos2) 1
    let v := if pos1 < pos2 then seq1 else seq2
    let w := if pos1 < pos2 then seq2 else seq1
    let m := u32sub k j
    let n := u32 seq1.length
    if m < n then do
      let b1 ← optAll (fun i => do
          let x ← v.get? i
          let y ← w.get? (n - m + i)
          pure (x == y && x == g.getBase (u32 (j + 1 + i))))
        (List.range m)
      let b2 ← optAll (fun i => do
          let x ← v.get? (m + i)
          let y ← w.get? i
          pure (x == y))
        (List.range (n - m))
      pure (b1 && b2)
    else if m = n then
      optAll (fun i => do
          let x ← v.get? i
          let y ← w.get? i
          pure (x == y && x == g.getBase (u32 (j + 1 + i))))
        (List.range n)
    else do
      let b1 ← optAll (fun i => do
          let x ← v.get? i
          pure (x == g.getBase (u32 (j + 1 + i))))
        (List.range n)
      let b2 ← optAll (fun i => do
          let x ← w.get? i
          pure (x == g.getBase (u32 (u32sub k n + 1 + i))))
        (List.range n)
      let b3 ← optAll (fun i =>
          pure (g.getBase (u32 (j + 1) + i) == g.getBase (u32 (u32 (j + 1) + i + n))))
        (List.range (u32sub k n + 1 - u32 (j + 1)))
      pure (b1 && b2 && b3)

/-- Function `equivalentDeletions` with checked subscripts (its loop performs no
string subscript at all; only the equal-position branch touches the
strings, by whole-string comparison). -/
def ReferenceGenome.equivalentDeletionsChecked (g : ReferenceGenome)
    (pos1 : Nat) (seq1 : List Char) (pos2 : Nat) (seq2 : List Char) :
    Option Bool :=
  if seq1.length ≠ seq2.length then some false
  else if pos1 = pos2 then some (seq1 == seq2)
  else
    let j := min pos1 pos2
    let k := max pos1 pos2
    let n := u32 seq1.length
    optAll (fun i =>
        pure (g.getBase (j + i) == g.getBase (u32 (j + i + n))))
      (List.range (k - j))

/-- The tandem-repeat window of the spec's concrete scenario: bases at
positions 1 through 12 are "ACGTACGTACGT". -/
def winRepeat : ReferenceGenome :=
  ⟨1, 12, "ACGTACGTACGT".toList⟩

/-- Window with bases T,A,C,T,T at positions 1..5 (counterexample data). -/
def winTACTT : ReferenceGenome :=
  ⟨1, 5, "TACTT".toList⟩

/-- Window with bases A,A,C at positions 1..3 (counterexample data). -/
def winAAC : ReferenceGenome :=
  ⟨1, 3, "AAC".toList⟩

/-- The window decoded from the single packed byte 147 (codes 2,1,0,3 at
positions 1 through 4). -/
def win147 : ReferenceGenome := ⟨1, 4, ['A', 'C', 'T', 'G']⟩

/-- The window decoded from the single packed byte 156 (codes 2,1,3,0 at
positions 1 through 4). -/
def win156 : ReferenceGenome := ⟨1, 4, ['A', 'C', 'G', 'T']⟩

/-- The alphabet of decoded bases. -/
def baseAlphabet : List Char := ['A', 'C', 'G', 'T', 'N']

-- scratch checks (removed later)


/-! ## Arithmetic helper lemmas -/

lemma u32_eq {a : Nat} (h : a < U32MOD) : u32 a = a := by
  unfold u32; exact Nat.mod_eq_of_lt h

lemma u32sub_one {a : Nat} (h1 : 1 ≤ a) (h2 : a < U32MOD) :
    u32sub a 1 = a - 1 := by
  unfold u32sub U32MOD at *; omega

lemma u32sub_le {a b : Nat} (hba : b ≤ a) (ha : a < U32MOD) :
    u32sub a b = a - b := by
  unfold u32sub U32MOD at *; omega

/-! ## List helper lemmas -/

lemma beq_list_comm (a b : List Char) : (a == b) = (b == a) := by
  by_cases h : a = b
  · subst h; rfl
  · rw [beq_eq_false_iff_ne.mpr h, beq_eq_false_iff_ne.mpr (Ne.symm h)]

lemma get?_eq_some_getD (l : List Char) (i : Nat) (h : i < l.length) :
    l.get? i = some (l.getD i ' ') := by
  induction l generalizing i with
  | nil => simp at h
  | cons x xs ih =>
    cases i with
    | zero => rfl
    | succ n => exact ih n (by simpa using h)

lemma getD_mem (l : List Char) (i : Nat) (d : Char) (h : i < l.length) :
    l.getD i d ∈ l := by
  induction l generalizing i with
  | nil => simp at h
  | cons x xs ih =>
    cases i with
    | zero => exact List.mem_cons_self _ _
    | succ n => exact List.mem_cons_of_mem _ (ih n (by simpa using h))

lemma optAll_eq_some (f : Nat → Option Bool) (p : Nat → Bool) :
    ∀ l : List Nat, (∀ a ∈ l, f a = some (p a)) →
      optAll f l = some (l.all p) := by
  intro l
  induction l with
  | nil => intro _; rfl
  | cons a as ih =>
    intro h
    have ha := h a (List.mem_cons_self _ _)
    have has : ∀ b ∈ as, f b = some (p b) :=
      fun b hb => h b (List.mem_cons_of_mem _ hb)
    simp only [optAll, ha, Option.bind_eq_bind, Option.some_bind, List.all_cons]
    cases hpa : p a
    · simp
    · simpa using ih has

/-! ## Lemmas about the constructor's decode and overlay -/

lemma symbol_mem (n : Nat) : symbol n ∈ baseAlphabet := by
  rcases n with _ | _ | _ | m
  · decide
  · decide
  · decide
  · show ('G' : Char) ∈ baseAlphabet
    decide

lemma decodeRange_mem {bytes : List Nat} {b e : Nat} {c : Char}
    (h : c ∈ decodeRange bytes b e) : c ∈ baseAlphabet := by
  rcases List.mem_map.mp h with ⟨i, _, rfl⟩
  exact symbol_mem _

lemma decodeRange_length (bytes : List Nat) (b e : Nat) :
    (decodeRange bytes b e).length = e + 1 - b := by
  simp [decodeRange]

lemma markRange_mem {sq : List Char} {c : Char} :
    ∀ {i lo hi : Nat}, c ∈ markRange sq i lo hi → c = 'N' ∨ c ∈ sq := by
  induction sq with
  | nil => intro i lo hi h; simp [markRange] at h
  | cons x xs ih =>
    intro i lo hi h
    rcases List.mem_cons.mp h with h | h
    · split at h
      · exact Or.inl h
      · exact Or.inr (h ▸ List.mem_cons_self _ _)
    · rcases ih h with h | h
      · exact Or.inl h
      · exact Or.inr (List.mem_cons_of_mem _ h)

lemma markRange_length (sq : List Char) :
    ∀ i lo hi, (markRange sq i lo hi).length = sq.length := by
  induction sq with
  | nil => intro _ _ _; rfl
  | cons x xs ih => intro i lo hi; simp [markRange, ih]

lemma applyUnknown_mem {b e : Nat} {c : Char} :
    ∀ (blocks : List (Nat × Nat)) (sq : List Char),
      (∀ x ∈ sq, x ∈ baseAlphabet) → c ∈ applyUnknown b e blocks sq →
      c ∈ baseAlphabet := by
  intro blocks
  induction blocks with
  | nil => intro sq hsq hc; exact hsq c hc
  | cons blk blocks ih =>
    intro sq hsq hc
    refine ih _ ?_ hc
    intro x hx
    dsimp only at hx
    split at hx
    · rcases markRange_mem hx with h | h
      · subst h; decide
      · exact hsq x h
    · exact hsq x hx

lemma applyUnknown_length (b e : Nat) :
    ∀ (blocks : List (Nat × Nat)) (sq : List Char),
      (applyUnknown b e blocks sq).length = sq.length := by
  intro blocks
  induction blocks with
  | nil => intro sq; rfl
  | cons blk blocks ih =>
    intro sq
    show (applyUnknown b e blocks _).length = _
    rw [ih]
    dsimp only
    split
    · exact markRange_length _ _ _ _
    · rfl

/-- Everything a successful `buildWindow` guarantees about the window it
returns: the window bounds and the decoded-overlaid sequence. -/
lemma buildWindow_ok {bp ep nb : Nat} {blocks : List (Nat × Nat)}
    {bytes : List Nat} {g : ReferenceGenome}
    (h : buildWindow bp ep nb blocks bytes = .ok g) :
    (∀ c ∈ g.sequence, c ∈ baseAlphabet) ∧
      g.sequence.length = g.endPos + 1 - g.beginPos := by
  simp only [buildWindow] at h
  split at h
  all_goals split at h
  all_goals try exact Except.noConfusion h
  all_goals split at h
  all_goals try exact Except.noConfusion h
  all_goals injection h with h
  all_goals subst h
  all_goals refine ⟨fun c hc => applyUnknown_mem _ _ (fun x hx => decodeRange_mem hx) hc, ?_⟩
  all_goals simp [applyUnknown_length, decodeRange_length]

lemma findChrOffset_zero {chrNumber : Nat} {chrName : String} :
    ∀ entries : List (String × Nat),
      (∀ e ∈ entries, matchesEntry chrNumber chrName e.1 = true → u32 e.2 = 0) →
      findChrOffset entries chrNumber chrName = 0 := by
  intro entries
  induction entries with
  | nil => intro _; rfl
  | cons e es ih =>
    intro h
    have step : scanStep chrNumber chrName 0 e = 0 := by
      unfold scanStep
      cases hm : matchesEntry chrNumber chrName e.1
      · simp [hm]
      · simpa [hm] using h e (List.mem_cons_self _ _) hm
    show List.foldl (scanStep chrNumber chrName) (scanStep chrNumber chrName 0 e) es = 0
    rw [step]
    exact ih fun x hx => h x (List.mem_cons_of_mem _ hx)

/-! ## Claims -/

/-- C1: the claim states that on the tandem-repeat window (bases 1..12 =
"ACGTACGTACGT") `equivalentInsertions(4,"ACGT",8,"ACGT")` returns true.
It returns false: the code treats an insertion at `pos` as inserting
immediately before position `pos` (`j = pos - 1` is "the position before
the insertion"), not after it. -/
theorem claim_C1_counterexample :
    winRepeat.equivalentInsertions 4 "ACGT".toList 8 "ACGT".toList = false := by
  decide

/-- C1 (amended): `equivalentInsertions(4,"ACGT",8,"ACGT")` returns false
on the tandem-repeat window; the insertion positions are interpreted as
insert-before-`pos`, so the equivalent pair for this scenario is positions
5 and 9: `equivalentInsertions(5,"ACGT",9,"ACGT")` returns true. -/
theorem claim_C1 :
    winRepeat.equivalentInsertions 4 "ACGT".toList 8 "ACGT".toList = false ∧
    winRepeat.equivalentInsertions 5 "ACGT".toList 9 "ACGT".toList = true := by
  decide

/-- C5: the claim states that packed 2-bit codes `[2,1,0,3]` at positions
1..4 decode to "ACGT".  They do not: with the source's symbol table
(0 is T, 1 is C, 2 is A, 3 is G) the byte 147 (codes 2,1,0,3) decodes to
"ACTG"; in particular `getBase(3)` is 'T', not 'G'. -/
theorem claim_C5_counterexample :
    buildWindow 1 4 4 [] [147] = .ok win147 ∧
    win147.getBase 3 = 'T' ∧ ('T' : Char) ≠ 'G' :=
  ⟨rfl, rfl, by decide⟩

/-- C5 (amended): codes `[2,1,0,3]` (the packed byte 147) decode to
"ACTG"; the codes that decode to "ACGT" are `[2,1,3,0]` (byte 156). -/
theorem claim_C5 :
    buildWindow 1 4 4 [] [147] = .ok win147 ∧
    win147.getBase 1 = 'A' ∧ win147.getBase 2 = 'C' ∧
    win147.getBase 3 = 'T' ∧ win147.getBase 4 = 'G' ∧
    buildWindow 1 4 4 [] [156] = .ok win156 :=
  ⟨rfl, rfl, rfl, rfl, rfl, rfl⟩

/-- C2: the claimed characterization of the `m == n` case reads the
reference at `getBase(j+1+i)` with `j = min(pos1,pos2)`; the code anchors
one position earlier, at `getBase(j+i)`.  Concretely, on the window with
bases T,A,C,T,T at positions 1..5, `equivalentInsertions(2,"AC",4,"AC")`
returns true while the claimed right-hand side is false. -/
theorem claim_C2_counterexample :
    ¬ (winTACTT.equivalentInsertions 2 ['A', 'C'] 4 ['A', 'C'] = true ↔
       ∀ i, i < 2 →
         List.getD ['A', 'C'] i ' ' = List.getD ['A', 'C'] i ' ' ∧
         List.getD ['A', 'C'] i ' ' = winTACTT.getBase (2 + 1 + i)) := by
  decide

/-- C3: the claimed characterization of the `m < n` case swaps `m` and
`n-m`: it checks the first `n-m` characters of `v` against `w` shifted and
the reference, and `v[i] == w[i-(n-m)]` for the rest, while the code checks
the first `m` characters of `v` against `w[i+(n-m)]` and `getBase(j+i)`
(`j = min(pos1,pos2)`), and `v[i] == w[i-m]` for `i` in `[m,n)`.  On the
window with bases T,A,C,T,T at positions 1..5,
`equivalentInsertions(2,"ACG",4,"GAC")` returns true while the claimed
right-hand side is false. -/
theorem claim_C3_counterexample :
    ¬ (winTACTT.equivalentInsertions 2 ['A', 'C', 'G'] 4 ['G', 'A', 'C'] = true ↔
       ((∀ i, i < 1 →
           List.getD ['A', 'C', 'G'] i ' ' = List.getD ['G', 'A', 'C'] (i + 1) ' ' ∧
           List.getD ['A', 'C', 'G'] i ' ' = winTACTT.getBase (2 + 1 + i)) ∧
        (∀ i, 1 ≤ i → i < 3 →
           List.getD ['A', 'C', 'G'] i ' ' = List.getD ['G', 'A', 'C'] (i - 1) ' '))) := by
  decide

/-- C4: the claimed periodicity range is the half-open `[j, k-1)`, which
omits the last checked offset; the code checks `getBase(s) == getBase(s+n)`
for every `s` in `[j, k)`.  On the window with bases A,A,C at positions
1..3, `equivalentDeletions(1,"A",3,"A")` returns false (the check at
`s = 2` fails) while the claimed right-hand side, quantifying only over
`s` in `[1,2)`, is true. -/
theorem claim_C4_counterexample :
    ¬ (winAAC.equivalentDeletions 1 ['A'] 3 ['A'] = true ↔
       ∀ s, 1 ≤ s → s < 2 → winAAC.getBase s = winAAC.getBase (s + 1)) := by
  decide

/-- C2 (amended): with `j = min(pos1,pos2)`, `v`/`w` the sequences at the
smaller/larger position and `m = n` (gap equal to the common length), the
verdict is true iff for every `i` in `[0,n)`, `v[i] == w[i]` and
`v[i] == getBase(j+i)` — the reference comparison starts at `j`, not
`j+1`.  (Positions are at least 1 and `j + n` stays within `uint32`
range, as for every genomic coordinate.) -/
theorem claim_C2 (g : ReferenceGenome) (pos1 pos2 : Nat) (seq1 seq2 : List Char)
    (hne : pos1 ≠ pos2) (hlen : seq1.length = seq2.length)
    (h1 : 1 ≤ pos1) (h2 : 1 ≤ pos2)
    (hbound : min pos1 pos2 + seq1.length < U32MOD)
    (hgap : max pos1 pos2 - min pos1 pos2 = seq1.length) :
    g.equivalentInsertions pos1 seq1 pos2 seq2 = true ↔
      ∀ i, i < seq1.length →
        (if pos1 < pos2 then seq1 else seq2).getD i ' ' =
          (if pos1 < pos2 then seq2 else seq1).getD i ' ' ∧
        (if pos1 < pos2 then seq1 else seq2).getD i ' ' =
          g.getBase (min pos1 pos2 + i) := by
  have hp1 : 1 ≤ min pos1 pos2 := le_min h1 h2
  have hpq : min pos1 pos2 ≤ max pos1 pos2 := min_le_max
  have hqe : max pos1 pos2 = min pos1 pos2 + seq1.length := by omega
  have hpU : min pos1 pos2 < U32MOD := by omega
  have hqU : max pos1 pos2 < U32MOD := by omega
  have hnU : seq1.length < U32MOD := by omega
  simp only [ReferenceGenome.equivalentInsertions]
  rw [if_neg (not_not_intro hlen), if_neg hne,
      u32sub_one hp1 hpU, u32sub_one (by omega) hqU,
      u32sub_le (by omega) (by omega), u32_eq hnU]
  have hm : max pos1 pos2 - 1 - (min pos1 pos2 - 1) = seq1.length := by omega
  rw [hm, if_neg (lt_irrefl _), if_pos rfl]
  rw [List.all_eq_true]
  simp only [List.mem_range, Bool.and_eq_true, beq_iff_eq]
  refine forall_congr' fun i => imp_congr_right fun hi => ?_
  have harg : u32 (min pos1 pos2 - 1 + 1 + i) = min pos1 pos2 + i := by
    rw [show min pos1 pos2 - 1 + 1 + i = min pos1 pos2 + i from by omega]
    exact u32_eq (by omega)
  rw [harg]

/-- C2 witness: the amended characterization at a concrete true instance
(window T,A,C,T,T at positions 1..5, insertions of "AC" at 2 and 4). -/
theorem claim_C2_witness :
    winTACTT.equivalentInsertions 2 ['A', 'C'] 4 ['A', 'C'] = true ↔
      ∀ i, i < 2 →
        List.getD ['A', 'C'] i ' ' = List.getD ['A', 'C'] i ' ' ∧
        List.getD ['A', 'C'] i ' ' = winTACTT.getBase (2 + i) :=
  claim_C2 winTACTT 2 4 ['A', 'C'] ['A', 'C'] (by decide) rfl (by decide)
    (by decide) (by decide) (by decide)

/-- C3 (amended): with `j = min(pos1,pos2)`, `v`/`w` the sequences at the
smaller/larger position, gap `m = max - min` and `m < n`, the verdict is
true iff for every `i` in `[0,m)`, `v[i] == w[(n-m)+i]` and
`v[i] == getBase(j+i)`, and for every `i` in `[m,n)`, `v[i] == w[i-m]` —
the loop bounds are `m` and `n-m`, not `n-m` and `m`, and the reference
comparison starts at `j`, not `j+1`. -/
theorem claim_C3 (g : ReferenceGenome) (pos1 pos2 : Nat) (seq1 seq2 : List Char)
    (hne : pos1 ≠ pos2) (hlen : seq1.length = seq2.length)
    (h1 : 1 ≤ pos1) (h2 : 1 ≤ pos2)
    (hbound : min pos1 pos2 + seq1.length < U32MOD)
    (hgap : max pos1 pos2 - min pos1 pos2 < seq1.length) :
    g.equivalentInsertions pos1 seq1 pos2 seq2 = true ↔
      ((∀ i, i < max pos1 pos2 - min pos1 pos2 →
          (if pos1 < pos2 then seq1 else seq2).getD i ' ' =
            (if pos1 < pos2 then seq2 else seq1).getD
              (seq1.length - (max pos1 pos2 - min pos1 pos2) + i) ' ' ∧
          (if pos1 < pos2 then seq1 else seq2).getD i ' ' =
            g.getBase (min pos1 pos2 + i)) ∧
       (∀ i, max pos1 pos2 - min pos1 pos2 ≤ i → i < seq1.length →
          (if pos1 < pos2 then seq1 else seq2).getD i ' ' =
            (if pos1 < pos2 then seq2 else seq1).getD
              (i - (max pos1 pos2 - min pos1 pos2)) ' ')) := by
  have hp1 : 1 ≤ min pos1 pos2 := le_min h1 h2
  have hpq : min pos1 pos2 ≤ max pos1 pos2 := min_le_max
  have hpU : min pos1 pos2 < U32MOD := by omega
  have hqU : max pos1 pos2 < U32MOD := by omega
  have hnU : seq1.length < U32MOD := by omega
  simp only [ReferenceGenome.equivalentInsertions]
  rw [if_neg (not_not_intro hlen), if_neg hne,
      u32sub_one hp1 hpU, u32sub_one (by omega) hqU,
      u32sub_le (by omega) (by omega), u32_eq hnU]
  have hm : max pos1 pos2 - 1 - (min pos1 pos2 - 1) =
      max pos1 pos2 - min pos1 pos2 := by omega
  rw [hm, if_pos hgap, Bool.and_eq_true, List.all_eq_true, List.all_eq_true]
  simp only [List.mem_range, Bool.and_eq_true, beq_iff_eq]
  have harg : ∀ i, i < seq1.length →
      u32 (min pos1 pos2 - 1 + 1 + i) = min pos1 pos2 + i := by
    intro i hi
    rw [show min pos1 pos2 - 1 + 1 + i = min pos1 pos2 + i from by omega]
    exact u32_eq (by omega)
  refine and_congr ?_ ?_
  · refine forall_congr' fun i => imp_congr_right fun hi => ?_
    rw [harg i (by omega)]
  · constructor
    · intro hall i him hilen
      have h := hall (i - (max pos1 pos2 - min pos1 pos2)) (by omega)
      rw [show max pos1 pos2 - min pos1 pos2 +
            (i - (max pos1 pos2 - min pos1 pos2)) = i from by omega] at h
      exact h
    · intro hall i hi
      have h := hall (max pos1 pos2 - min pos1 pos2 + i) (by omega) (by omega)
      rw [show max pos1 pos2 - min pos1 pos2 + i -
            (max pos1 pos2 - min pos1 pos2) = i from by omega] at h
      exact h

/-- C3 witness: the amended characterization at a concrete true instance
(window T,A,C,T,T at positions 1..5, insertions of "ACG" at 2 and "GAC"
at 4, gap 2, length 3). -/
theorem claim_C3_witness :
    winTACTT.equivalentInsertions 2 ['A', 'C', 'G'] 4 ['G', 'A', 'C'] = true ↔
      ((∀ i, i < 2 →
          List.getD ['A', 'C', 'G'] i ' ' = List.getD ['G', 'A', 'C'] (1 + i) ' ' ∧
          List.getD ['A', 'C', 'G'] i ' ' = winTACTT.getBase (2 + i)) ∧
       (∀ i, 2 ≤ i → i < 3 →
          List.getD ['A', 'C', 'G'] i ' ' = List.getD ['G', 'A', 'C'] (i - 2) ' ')) :=
  claim_C3 winTACTT 2 4 ['A', 'C', 'G'] ['G', 'A', 'C'] (by decide) rfl
    (by decide) (by decide) (by decide) (by decide)

/-- C4 (amended): with `j = min(pos1,pos2)`, `k = max(pos1,pos2)` and
`n` the common length, the verdict of `equivalentDeletions` is true iff
`getBase(s) == getBase(s+n)` for every `s` in the half-open range
`[j, k)` — the upper bound is `k`, not `k-1`.  (`k + n` stays within
`uint32` range, as for every genomic coordinate.) -/
theorem claim_C4 (g : ReferenceGenome) (pos1 pos2 : Nat) (seq1 seq2 : List Char)
    (hne : pos1 ≠ pos2) (hlen : seq1.length = seq2.length)
    (hbound : max pos1 pos2 + seq1.length < U32MOD) :
    g.equivalentDeletions pos1 seq1 pos2 seq2 = true ↔
      ∀ s, min pos1 pos2 ≤ s → s < max pos1 pos2 →
        g.getBase s = g.getBase (s + seq1.length) := by
  have hpq : min pos1 pos2 ≤ max pos1 pos2 := min_le_max
  simp only [ReferenceGenome.equivalentDeletions]
  rw [if_neg (not_not_intro hlen), if_neg hne, u32_eq (show seq1.length < U32MOD by omega)]
  rw [List.all_eq_true]
  simp only [List.mem_range, beq_iff_eq]
  constructor
  · intro hall s hs1 hs2
    have h := hall (s - min pos1 pos2) (by omega)
    rw [show min pos1 pos2 + (s - min pos1 pos2) = s from by omega] at h
    rw [u32_eq (by omega)] at h
    exact h
  · intro hall i hi
    have h := hall (min pos1 pos2 + i) (by omega) (by omega)
    rw [u32_eq (by omega)]
    exact h

/-- C4 witness: the amended characterization at a concrete instance
(window A,A,C at positions 1..3, deletions of "A" at 1 and 3; both sides
are false, since the periodicity check fails at s = 2). -/
theorem claim_C4_witness :
    winAAC.equivalentDeletions 1 ['A'] 3 ['A'] = true ↔
      ∀ s, 1 ≤ s → s < 3 → winAAC.getBase s = winAAC.getBase (s + 1) :=
  claim_C4 winAAC 1 3 ['A'] ['A'] (by decide) rfl (by decide)

lemma equivalentInsertions_comm (g : ReferenceGenome) (pos1 pos2 : Nat)
    (seq1 seq2 : List Char) :
    g.equivalentInsertions pos1 seq1 pos2 seq2 =
      g.equivalentInsertions pos2 seq2 pos1 seq1 := by
  by_cases hl : seq1.length = seq2.length
  · by_cases hp : pos1 = pos2
    · subst hp
      simp only [ReferenceGenome.equivalentInsertions]
      rw [if_neg (not_not_intro hl), if_neg (not_not_intro hl.symm),
          if_pos trivial, if_pos trivial]
      exact beq_list_comm _ _
    · simp only [ReferenceGenome.equivalentInsertions]
      rw [if_neg (not_not_intro hl), if_neg (not_not_intro hl.symm),
          if_neg hp, if_neg (Ne.symm hp)]
      rcases lt_or_gt_of_ne hp with h | h
      · simp [min_comm pos2 pos1, max_comm pos2 pos1, hl, h, lt_asymm h]
      · simp [min_comm pos2 pos1, max_comm pos2 pos1, hl, h, lt_asymm h]
  · simp only [ReferenceGenome.equivalentInsertions]
    rw [if_pos hl, if_pos (fun he => hl he.symm)]

lemma equivalentDeletions_comm (g : ReferenceGenome) (pos1 pos2 : Nat)
    (seq1 seq2 : List Char) :
    g.equivalentDeletions pos1 seq1 pos2 seq2 =
      g.equivalentDeletions pos2 seq2 pos1 seq1 := by
  by_cases hl : seq1.length = seq2.length
  · by_cases hp : pos1 = pos2
    · subst hp
      simp only [ReferenceGenome.equivalentDeletions]
      rw [if_neg (not_not_intro hl), if_neg (not_not_intro hl.symm),
          if_pos trivial, if_pos trivial]
      exact beq_list_comm _ _
    · simp only [ReferenceGenome.equivalentDeletions]
      rw [if_neg (not_not_intro hl), if_neg (not_not_intro hl.symm),
          if_neg hp, if_neg (Ne.symm hp)]
      rw [min_comm pos2 pos1, max_comm pos2 pos1, hl]
  · simp only [ReferenceGenome.equivalentDeletions]
    rw [if_pos hl, if_pos (fun he => hl he.symm)]

/-- C7: equivalence checking is symmetric in its two indel arguments, for
both `equivalentInsertions` and `equivalentDeletions`, on every window
and all positions and sequences. -/
theorem claim_C7 (g : ReferenceGenome) (pos1 pos2 : Nat)
    (seq1 seq2 : List Char) :
    g.equivalentInsertions pos1 seq1 pos2 seq2 =
        g.equivalentInsertions pos2 seq2 pos1 seq1 ∧
      g.equivalentDeletions pos1 seq1 pos2 seq2 =
        g.equivalentDeletions pos2 seq2 pos1 seq1 :=
  ⟨equivalentInsertions_comm g pos1 pos2 seq1 seq2,
   equivalentDeletions_comm g pos1 pos2 seq1 seq2⟩

/-- C9: with distinct positions and equal lengths, the verdict of
`equivalentDeletions` depends only on the positions, the common length
and the window — never on the characters of the allele strings. -/
theorem claim_C9 (g : ReferenceGenome) (pos1 pos2 : Nat)
    (s1 s2 t1 t2 : List Char)
    (hne : pos1 ≠ pos2) (hs : s1.length = s2.length)
    (ht : t1.length = t2.length) (hst : t1.length = s1.length) :
    g.equivalentDeletions pos1 s1 pos2 s2 =
      g.equivalentDeletions pos1 t1 pos2 t2 := by
  simp only [ReferenceGenome.equivalentDeletions]
  rw [if_neg (not_not_intro hs), if_neg (not_not_intro ht),
      if_neg hne, if_neg hne, hst]

/-- C9 witness: replacing the deleted strings "A","A" by "C","C" (same
length) leaves the verdict unchanged at positions 1 and 2 of the A,A,C
window. -/
theorem claim_C9_witness :
    winAAC.equivalentDeletions 1 ['A'] 2 ['A'] =
      winAAC.equivalentDeletions 1 ['C'] 2 ['C'] :=
  claim_C9 winAAC 1 2 ['A'] ['A'] ['C'] ['C'] (by decide) rfl rfl rfl

lemma validDeletionChecked_eq (g : ReferenceGenome) (pos : Nat)
    (seq : List Char) :
    g.validDeletionChecked pos seq = some (g.validDeletion pos seq) := by
  simp only [ReferenceGenome.validDeletionChecked, ReferenceGenome.validDeletion]
  rw [optAll_eq_some
      (fun i => do
        let c ← seq.get? i
        pure (c == g.getBase (u32 (pos + i))))
      (fun i => seq.getD i ' ' == g.getBase (u32 (pos + i)))
      (List.range (u32 seq.length))
      (by
        intro a ha
        dsimp only
        rw [List.mem_range] at ha
        rw [get?_eq_some_getD seq a (by unfold u32 U32MOD at ha; omega)]
        rfl)]

lemma equivalentDeletionsChecked_eq (g : ReferenceGenome) (pos1 : Nat)
    (seq1 : List Char) (pos2 : Nat) (seq2 : List Char) :
    g.equivalentDeletionsChecked pos1 seq1 pos2 seq2 =
      some (g.equivalentDeletions pos1 seq1 pos2 seq2) := by
  simp only [ReferenceGenome.equivalentDeletionsChecked,
    ReferenceGenome.equivalentDeletions]
  split_ifs
  · rfl
  · rfl
  · exact optAll_eq_some _ _ _ (fun a _ => rfl)

lemma equivalentInsertionsChecked_eq (g : ReferenceGenome) (pos1 : Nat)
    (seq1 : List Char) (pos2 : Nat) (seq2 : List Char) :
    g.equivalentInsertionsChecked pos1 seq1 pos2 seq2 =
      some (g.equivalentInsertions pos1 seq1 pos2 seq2) := by
  simp only [ReferenceGenome.equivalentInsertionsChecked,
    ReferenceGenome.equivalentInsertions]
  by_cases hl : seq1.length = seq2.length
  · rw [if_neg (not_not_intro hl), if_neg (not_not_intro hl)]
    by_cases hp : pos1 = pos2
    · rw [if_pos hp, if_pos hp]
    · rw [if_neg hp, if_neg hp]
      set j := u32sub (min pos1 pos2) 1 with hj
      set k := u32sub (max pos1 pos2) 1 with hk
      set v := if pos1 < pos2 then seq1 else seq2 with hv
      set w := if pos1 < pos2 then seq2 else seq1 with hw
      set m := u32sub k j with hm
      set n := u32 seq1.length with hn
      have hvl : v.length = seq1.length := by
        rw [hv]; split
        · rfl
        · exact hl.symm
      have hwl : w.length = seq1.length := by
        rw [hw]; split
        · exact hl.symm
        · rfl
      have hnle : n ≤ seq1.length := by
        rw [hn]; unfold u32; exact Nat.mod_le _ _
      split_ifs with hmn hmeq
      · rw [optAll_eq_some
            (fun i => do
              let x ← v.get? i
              let y ← w.get? (n - m + i)
              pure (x == y && x == g.getBase (u32 (j + 1 + i))))
            (fun i =>
              v.getD i ' ' == w.getD (n - m + i) ' ' &&
              v.getD i ' ' == g.getBase (u32 (j + 1 + i)))
            (List.range m)
            (by
              intro a ha
              dsimp only
              rw [List.mem_range] at ha
              rw [get?_eq_some_getD v a (by omega),
                  get?_eq_some_getD w (n - m + a) (by omega)]
              rfl),
          optAll_eq_some
            (fun i => do
              let x ← v.get? (m + i)
              let y ← w.get? i
              pure (x == y))
            (fun i => v.getD (m + i) ' ' == w.getD i ' ')
            (List.range (n - m))
            (by
              intro a ha
              dsimp only
              rw [List.mem_range] at ha
              rw [get?_eq_some_getD v (m + a) (by omega),
                  get?_eq_some_getD w a (by omega)]
              rfl)]
        rfl
      · rw [optAll_eq_some
            (fun i => do
              let x ← v.get? i
              let y ← w.get? i
              pure (x == y && x == g.getBase (u32 (j + 1 + i))))
            (fun i =>
              v.getD i ' ' == w.getD i ' ' &&
              v.getD i ' ' == g.getBase (u32 (j + 1 + i)))
            (List.range n)
            (by
              intro a ha
              dsimp only
              rw [List.mem_range] at ha
              rw [get?_eq_some_getD v a (by omega),
                  get?_eq_some_getD w a (by omega)]
              rfl)]
      · rw [optAll_eq_some
            (fun i => do
              let x ← v.get? i
              pure (x == g.getBase (u32 (j + 1 + i))))
            (fun i => v.getD i ' ' == g.getBase (u32 (j + 1 + i)))
            (List.range n)
            (by
              intro a ha
              dsimp only
              rw [List.mem_range] at ha
              rw [get?_eq_some_getD v a (by omega)]
              rfl),
          optAll_eq_some
            (fun i => do
              let x ← w.get? i
              pure (x == g.getBase (u32 (u32sub k n + 1 + i))))
            (fun i => w.getD i ' ' == g.getBase (u32 (u32sub k n + 1 + i)))
            (List.range n)
            (by
              intro a ha
              dsimp only
              rw [List.mem_range] at ha
              rw [get?_eq_some_getD w a (by omega)]
              rfl),
          optAll_eq_some
            (fun i =>
              pure (g.getBase (u32 (j + 1) + i) ==
                g.getBase (u32 (u32 (j + 1) + i + n))))
            (fun i =>
              g.getBase (u32 (j + 1) + i) ==
                g.getBase (u32 (u32 (j + 1) + i + n)))
            (List.range (u32sub k n + 1 - u32 (j + 1)))
            (fun a _ => rfl)]
        rfl
  · rw [if_pos hl, if_pos hl]

/-- C8: the checker operations are total and never reach an out-of-range
access: with every string subscript performed through `List.get?`
(`none` on any out-of-range index), each checked function returns `some`
of the boolean verdict of the corresponding total function, for every
window, all positions at least 1 and all allele strings. -/
theorem claim_C8 (g : ReferenceGenome) (pos1 : Nat) (seq1 : List Char)
    (pos2 : Nat) (seq2 : List Char) (_h1 : 1 ≤ pos1) (_h2 : 1 ≤ pos2) :
    g.equivalentInsertionsChecked pos1 seq1 pos2 seq2 =
        some (g.equivalentInsertions pos1 seq1 pos2 seq2) ∧
      g.equivalentDeletionsChecked pos1 seq1 pos2 seq2 =
        some (g.equivalentDeletions pos1 seq1 pos2 seq2) ∧
      g.validDeletionChecked pos1 seq1 =
        some (g.validDeletion pos1 seq1) :=
  ⟨equivalentInsertionsChecked_eq g pos1 seq1 pos2 seq2,
   equivalentDeletionsChecked_eq g pos1 seq1 pos2 seq2,
   validDeletionChecked_eq g pos1 seq1⟩

/-- C8 witness: the three checked functions return `some` of the total
verdict at a concrete instance. -/
theorem claim_C8_witness :
    winTACTT.equivalentInsertionsChecked 2 ['A', 'C'] 4 ['A', 'C'] =
        some (winTACTT.equivalentInsertions 2 ['A', 'C'] 4 ['A', 'C']) ∧
      winTACTT.equivalentDeletionsChecked 2 ['A', 'C'] 4 ['A', 'C'] =
        some (winTACTT.equivalentDeletions 2 ['A', 'C'] 4 ['A', 'C']) ∧
      winTACTT.validDeletionChecked 2 ['A', 'C'] =
        some (winTACTT.validDeletion 2 ['A', 'C']) :=
  claim_C8 winTACTT 2 ['A', 'C'] 4 ['A', 'C'] (by decide) (by decide)

/-- C6: on every successfully constructed window, `getBase` returns one of
the five characters A, C, G, T, N at every position, and returns 'N'
(rather than erroring) at every position outside `[beginPos, endPos]`. -/
theorem claim_C6 (entries : List (String × Nat))
    (records : Nat → Option ChrRecord) (chrNumber : Nat) (chrName : String)
    (beginpos endpos : Nat) (g : ReferenceGenome) (pos : Nat)
    (h : mkReferenceGenome entries records chrNumber chrName beginpos endpos =
      .ok g) :
    g.getBase pos ∈ baseAlphabet ∧
      ((pos < g.beginPos ∨ pos > g.endPos) → g.getBase pos = 'N') := by
  have hb : (∀ c ∈ g.sequence, c ∈ baseAlphabet) ∧
      g.sequence.length = g.endPos + 1 - g.beginPos := by
    simp only [mkReferenceGenome] at h
    split at h
    · exact Except.noConfusion h
    · split at h
      · exact Except.noConfusion h
      · split at h
        · exact Except.noConfusion h
        · exact buildWindow_ok h
  constructor
  · unfold ReferenceGenome.getBase
    split
    · decide
    · rename_i hin
      push_neg at hin
      have hlt : pos - g.beginPos < g.sequence.length := by omega
      exact hb.1 _ (getD_mem _ _ _ hlt)
  · intro hout
    unfold ReferenceGenome.getBase
    rw [if_pos hout]

/-- C6 witness: the invariant at position 0 (out of window, resolving to
'N') of a window constructed from a one-chromosome file. -/
theorem claim_C6_witness :
    win147.getBase 0 ∈ baseAlphabet ∧
      ((0 < win147.beginPos ∨ 0 > win147.endPos) → win147.getBase 0 = 'N') :=
  claim_C6 [("1", 16)] (fun o => if o = 16 then some ⟨4, [], [147]⟩ else none)
    1 "" 1 4 win147 0 rfl

/-- C10: byte offset 0 is the constructor's not-found sentinel, so a
directory entry whose stored offset is 0 can never be selected: the scan
continues past such a matching entry, and when every matching entry has a
zero stored offset the construction fails with the chromosome-not-found
error. -/
theorem claim_C10 :
    (∀ (chrNumber : Nat) (chrName name : String) (rest : List (String × Nat)),
        matchesEntry chrNumber chrName name = true →
        findChrOffset ((name, 0) :: rest) chrNumber chrName =
          findChrOffset rest chrNumber chrName) ∧
    (∀ (entries : List (String × Nat)) (records : Nat → Option ChrRecord)
        (chrNumber : Nat) (chrName : String) (beginpos endpos : Nat),
        ¬(chrName = "" ∧ (chrNumber = 0 ∨ chrNumber > NUM_CHROMOSOMES)) →
        (∀ e ∈ entries, matchesEntry chrNumber chrName e.1 = true →
          u32 e.2 = 0) →
        mkReferenceGenome entries records chrNumber chrName beginpos endpos =
          .error (.chromosomeNotFound
            (if chrName = "" then chrShortName.getD chrNumber ""
             else chrName))) := by
  constructor
  · intro chrNumber chrName name rest hmatch
    show List.foldl (scanStep chrNumber chrName)
      (scanStep chrNumber chrName 0 (name, 0)) rest = _
    have hstep : scanStep chrNumber chrName 0 (name, 0) = 0 := by
      unfold scanStep
      simp [hmatch, u32]
    rw [hstep]
    rfl
  · intro entries records chrNumber chrName beginpos endpos hvalid hzero
    simp only [mkReferenceGenome]
    rw [if_neg hvalid, if_pos (findChrOffset_zero entries hzero)]

/-- C10 witness: the scan passes over a matching zero-offset entry, and a
directory whose only matching entry stores offset 0 makes construction
fail with the chromosome-not-found error. -/
theorem claim_C10_witness :
    findChrOffset [("1", 0), ("1", 5)] 1 "" = findChrOffset [("1", 5)] 1 "" ∧
    mkReferenceGenome [("1", 0)] (fun _ => none) 1 "" 1 4 =
      .error (.chromosomeNotFound "1") :=
  ⟨claim_C10.1 1 "" "1" [("1", 5)] (by decide),
   claim_C10.2 [("1", 0)] (fun _ => none) 1 "" 1 4 (by decide) (by decide)⟩

end VCF2CNA
